import Mathlib

/-
Verification of the JQ-300 cloud account controller
(custom_components/jq300/__init__.py).

Shallow embedding notes:
- Python dicts are modelled as association lists in insertion order
  (`alookup` returns the first binding, `aupdate` replaces in place or
  appends, `asetdefault` appends only when the key is absent), matching
  CPython dict semantics for lookup, assignment and setdefault.
- Python numbers are modelled by `PyNum`: an int carries a ℤ, a float
  carries a ℚ (exact-rational model of float arithmetic; no claim depends
  on binary floating-point rounding error).  Mixed int/float arithmetic
  promotes to float as in Python; `int(x)` truncates toward zero;
  `round(x, n)` rounds half to even.
- Timestamps are ℤ (unix seconds).  The retention window
  SENSORS_FILTER_FRAME, the molar weights MWEIGTH_TVOC / MWEIGTH_HCHO and
  the two static sensor tables live in const.py, which is not part of the
  provided sources; per the spec they are fixed configuration, so they are
  kept as parameters.
- Dict indexing that can raise KeyError is modelled in the Option monad:
  `none` is the exception path.
- Network traffic is an oracle parameter: each call site receives the
  parsed response of its query, or none for a transport or API failure.
-/

set_option linter.unusedSectionVars false

namespace Jq300

/-! ## Association lists (Python dict model) -/

/-- First binding of key `k`, like Python `d[k]` when present. -/
def alookup {κ α : Type} [DecidableEq κ] (k : κ) : List (κ × α) → Option α
  | [] => none
  | (k1, v) :: t => if k1 = k then some v else alookup k t

/-- Assignment `d[k] = v`: replace the first binding in place, else append. -/
def aupdate {κ α : Type} [DecidableEq κ] (k : κ) (v : α) : List (κ × α) → List (κ × α)
  | [] => [(k, v)]
  | (k1, v1) :: t => if k1 = k then (k, v) :: t else (k1, v1) :: aupdate k v t

/-- Python `d.setdefault(k, v)`: append a binding only when `k` is absent. -/
def asetdefault {κ α : Type} [DecidableEq κ] (k : κ) (v : α) (l : List (κ × α)) :
    List (κ × α) :=
  if (alookup k l).isSome then l else l ++ [(k, v)]

/-- Key list of an association list. -/
def akeys {κ α : Type} (l : List (κ × α)) : List κ := l.map Prod.fst

/-! ## Python numbers -/

/-- Python dynamic number: an `int` or a `float` (modelled exactly as ℚ). -/
inductive PyNum : Type
  | int (z : ℤ)
  | float (q : ℚ)
deriving DecidableEq, Repr

/-- Numeric value, forgetting the dynamic type tag. -/
def PyNum.toRat : PyNum → ℚ
  | int z => (z : ℚ)
  | float q => q

/-- Python type test used by the rounding rule (isinstance(x, int)). -/
def PyNum.isInt : PyNum → Bool
  | int _ => true
  | float _ => false

/-- Python addition: int + int is int, any float operand promotes to float. -/
def PyNum.add : PyNum → PyNum → PyNum
  | int a, int b => int (a + b)
  | a, b => float (a.toRat + b.toRat)

/-- Multiplication by a Python int scalar, preserving the dynamic type. -/
def PyNum.mulInt : PyNum → ℤ → PyNum
  | int a, n => int (a * n)
  | float q, n => float (q * (n : ℚ))

/-- Floor of a rational, in kernel-computable form (the integer division
on ℤ is Euclidean division, which is flooring for the positive
denominator). -/
def floorQ (q : ℚ) : ℤ := q.num / (q.den : ℤ)

/-- Ceiling of a rational, in kernel-computable form. -/
def ceilQ (q : ℚ) : ℤ := -floorQ (-q)

/-- Python `int(x)` on a real value: truncation toward zero. -/
def truncQ (q : ℚ) : ℤ := if 0 ≤ q then floorQ q else ceilQ q

/-- Round half to even to the nearest integer, as Python round does. -/
def roundHalfEven (q : ℚ) : ℤ :=
  let f := floorQ q
  let r := q - (f : ℚ)
  if r < 1 / 2 then f
  else if 1 / 2 < r then f + 1
  else if f % 2 = 0 then f else f + 1

/-- Python `round(x, n)` on a float: half-to-even at `n` decimal digits. -/
def pyRound (q : ℚ) (n : ℕ) : ℚ :=
  ((roundHalfEven (q * (10 : ℚ) ^ n) : ℤ) : ℚ) / (10 : ℚ) ^ n

/-! ## Units and sensor ingest (_fetch_sensors, lines 450-465) -/

/-- Unit of measure of a sensor, as far as the controller distinguishes
them: the mass concentration unit mg per cubic metre, the two parts-based
units ppm and ppb, and anything else (binary-sensor units etc.). -/
inductive CUnit : Type
  | mgm3
  | ppm
  | ppb
  | other
deriving DecidableEq, Repr

/-- Unit map built in JqAccount init: sensors from the continuous table
(membership injected as inSensors, the table lives in const.py) have their
unit overridden to ppb for id 8 when receive_tvoc_in_ppb is set and for
id 7 when receive_hcho_in_ppb is set; all other sensors keep the unit from
the static tables (injected as base). -/
def unitsOf (tvoc hcho : Bool) (inSensors : ℕ → Bool) (base : ℕ → CUnit) (s : ℕ) :
    CUnit :=
  if inSensors s = true ∧ ((tvoc = true ∧ s = 8) ∨ (hcho = true ∧ s = 7)) then
    CUnit.ppb
  else base s

/-- Per-sensor value transform of _fetch_sensors: float(content), then the
parts-based conversion for TVOC (id 8) or HCHO (id 7) when the respective
preference flag is set, then int() truncation unless the resolved unit is
the mass-concentration unit.  24.45 is written 489/20.  The molar weights
are parameters, their values live in const.py. -/
def fetchSensorValue (tvoc hcho : Bool) (units : ℕ → CUnit) (mwTvoc mwHcho : ℚ)
    (s : ℕ) (m : ℚ) : PyNum :=
  let v : ℚ :=
    if s = 8 ∧ tvoc = true then m * (1000 * (489 / 20) / mwTvoc)
    else if s = 7 ∧ hcho = true then m * (1000 * (489 / 20) / mwHcho)
    else m
  if units s ≠ CUnit.mgm3 then PyNum.int (truncQ v) else PyNum.float v

/-- Sample set: sensor id to reading, one fetch at one instant. -/
abbrev SampleSet := List (ℕ × PyNum)

/-- Per-device sample history: unix timestamp to sample set, in dict
insertion order. -/
abbrev Hist := List (ℤ × SampleSet)

/-- Result-building loop of _fetch_sensors over the returned raw values:
skip null content and unknown sensor ids (membership in the union of the
two static tables injected as known), ingest everything else. -/
def fetchRes (tvoc hcho : Bool) (units : ℕ → CUnit) (mwTvoc mwHcho : ℚ)
    (known : ℕ → Bool) (vals : List (ℕ × Option ℚ)) : SampleSet :=
  vals.foldl
    (fun r p =>
      match p.2 with
      | none => r
      | some m =>
        if known p.1 = true then
          aupdate p.1 (fetchSensorValue tvoc hcho units mwTvoc mwHcho p.1 m) r
        else r)
    []

/-! ## History pruning (get_sensors, lines 522-537) -/

/-- Timestamps at or before the cutoff, in stored order. -/
def belowKeys {α : Type} (cutoff : ℤ) (h : List (ℤ × α)) : List ℤ :=
  (h.map Prod.fst).filter (fun t => decide (t ≤ cutoff))

/-- Lower bound of the retained window: the greatest stored timestamp that
is at or before the cutoff, or the cutoff itself when there is none.
Mirrors max(list(filter(lambda x: x <= ts_overdue, keys)) or set-of-cutoff). -/
def tsMinOf {α : Type} (cutoff : ℤ) (h : List (ℤ × α)) : ℤ :=
  match belowKeys cutoff h with
  | [] => cutoff
  | x :: xs => xs.foldl max x

/-- Pruning step of get_sensors: keep exactly the entries whose timestamp
is at least tsMinOf. -/
def pruneHistory {α : Type} (cutoff : ℤ) (h : List (ℤ × α)) : List (ℤ × α) :=
  h.filter (fun p => decide (tsMinOf cutoff h ≤ p.1))

/-! ## Average computation (get_sensors, lines 542-581) -/

/-- Accumulator seed: a zero int for every sensor id of the raw snapshot,
mirroring res.setdefault(sensor_id, 0) over the raw snapshot keys. -/
def seedRes (raw : SampleSet) : SampleSet :=
  raw.foldl (fun r p => asetdefault p.1 (PyNum.int 0) r) []

/-- One weighted accumulation pass: res[s] += val * dt for every binding
of the held sample set.  A sensor id absent from res raises KeyError,
modelled as none. -/
def addScaled (dt : ℤ) : SampleSet → SampleSet → Option SampleSet
  | res, [] => some res
  | res, (s, v) :: rest =>
    match alookup s res with
    | none => none
    | some cur => addScaled dt (aupdate s (cur.add (v.mulInt dt)) res) rest

/-- Summation loop of get_sensors followed by the final contribution of the
last held sample: walk the (pruned) history, weight the previously held
sample set by the elapsed time when positive, hold the new sample set from
max(ts, cutoff), and finish with weight now - lastTs + 1. -/
def sumLoop (now cutoff : ℤ) :
    Hist → ℤ → SampleSet → SampleSet → Option SampleSet
  | [], lastTs, lastData, res => addScaled (now - lastTs + 1) res lastData
  | (ts, data) :: rest, lastTs, lastData, res =>
    match (if ts - lastTs > 0 then addScaled (ts - lastTs) res lastData else some res) with
    | none => none
    | some res1 => sumLoop now cutoff rest (max ts cutoff) data res1

/-- Python min over the stored timestamps (history assumed non-empty where
used; an empty history yields 0, a value no caller consumes). -/
def minKey {α : Type} : List (ℤ × α) → ℤ
  | [] => 0
  | (t, _) :: r => (r.map Prod.fst).foldl min t

/-- Effective window length: max(1, now - max(earliest kept timestamp,
cutoff) + 1). -/
def avgLength (now cutoff : ℤ) (pruned : Hist) : ℤ :=
  max 1 (now - max (minKey pruned) cutoff + 1)

/-- Per-sensor post-processing of the accumulated sums: sensor id 1 is the
raw-snapshot passthrough (KeyError when the snapshot lacks id 1), sensors
with a parts-based unit are divided and truncated to int, everything else
is divided and rounded to 1 digit when the accumulator is an int, else to
3 digits. -/
def postVal (raw : SampleSet) (len : ℤ) (units : ℕ → CUnit) (s : ℕ) (v : PyNum) :
    Option PyNum :=
  if s = 1 then alookup 1 raw
  else if units s = CUnit.ppm ∨ units s = CUnit.ppb then
    some (PyNum.int (truncQ (v.toRat / (len : ℚ))))
  else
    some (PyNum.float (pyRound (v.toRat / (len : ℚ)) (if v.isInt then 1 else 3)))

/-- Post-processing pass over the accumulator, in place, key by key. -/
def postProcessGo (raw : SampleSet) (len : ℤ) (units : ℕ → CUnit) :
    SampleSet → Option SampleSet
  | [] => some []
  | (s, v) :: rest =>
    match postVal raw len units s v with
    | none => none
    | some nv =>
      match postProcessGo raw len units rest with
      | none => none
      | some out => some ((s, nv) :: out)

/-- Average-computation stage of get_sensors on an already pruned,
non-empty history: seed the accumulators and the held sample set from the
raw snapshot, run the summation loop from lastTs = cutoff, then divide and
round per sensor.  none is the KeyError path. -/
def computeAvg (now cutoff : ℤ) (units : ℕ → CUnit) (pruned : Hist)
    (raw : SampleSet) : Option SampleSet :=
  match sumLoop now cutoff pruned cutoff (seedRes raw) (seedRes raw) with
  | none => none
  | some res2 => postProcessGo raw (avgLength now cutoff pruned) units res2

/-! ## Spec-side notions for the claims -/

/-- Rational reading of a sample set at one sensor id, zero when absent. -/
def qval (s : ℕ) (l : SampleSet) : ℚ :=
  ((alookup s l).map PyNum.toRat).getD 0

/-- Zero-order-hold fold for one sensor as the spec states it: each stored
sample contributes its value times the time it was held, the held interval
starts no earlier than the cutoff, and the last sample is held through
now inclusive (the +1 rule). -/
def zohGo (now cutoff : ℤ) (s : ℕ) :
    Hist → ℤ → ℚ → ℚ → ℚ
  | [], lastTs, lastVal, acc => acc + lastVal * ((now - lastTs + 1 : ℤ) : ℚ)
  | (ts, data) :: rest, lastTs, lastVal, acc =>
    zohGo now cutoff s rest (max ts cutoff) (qval s data)
      (if ts - lastTs > 0 then acc + lastVal * ((ts - lastTs : ℤ) : ℚ) else acc)

/-- Zero-order-hold time-weighted sum for one sensor over a history,
starting from value 0 held since the cutoff. -/
def zohSum (now cutoff : ℤ) (s : ℕ) (hist : Hist) : ℚ :=
  zohGo now cutoff s hist cutoff 0 0

/-- The greatest stored timestamp at or before the cutoff, as the spec
describes it. -/
def isGreatestBelow {α : Type} (cutoff : ℤ) (h : List (ℤ × α)) (T : ℤ) : Prop :=
  T ∈ h.map Prod.fst ∧ T ≤ cutoff ∧ ∀ t ∈ h.map Prod.fst, t ≤ cutoff → t ≤ T

/-- The earliest kept timestamp, as the spec describes it. -/
def isLeastKey {α : Type} (h : List (ℤ × α)) (T : ℤ) : Prop :=
  T ∈ h.map Prod.fst ∧ ∀ t ∈ h.map Prod.fst, T ≤ t

/-- Well-formedness of a stored history against the raw snapshot: each
sample set mentions only sensor ids of the snapshot, each without
duplicate keys.  In operation every stored sample set and the snapshot
come from the same fetch loop, which builds dicts. -/
def histWF (raw : SampleSet) (hist : Hist) : Prop :=
  ∀ p ∈ hist, (∀ k ∈ akeys p.2, k ∈ akeys raw) ∧ (akeys p.2).Nodup

/-! ## Account state and operations -/

/-- Device record as cached by update_devices: cloud identity, device
token, and the refresh stamp the code writes under the empty-string key
(none until stamped). -/
structure Dev : Type where
  deviceid : ℕ
  deviceToken : ℕ
  stamp : Option ℤ
deriving DecidableEq, Repr

/-- Mutable state of JqAccount: session uid and token (none models the
anonymous placeholder), cached device map, per-device sample history,
per-device raw snapshot, active device list. -/
structure AccState : Type where
  uid : ℤ
  safeTok : Option ℕ
  devices : List (ℕ × Dev)
  sensors : List (ℕ × Hist)
  sensorsRaw : List (ℕ × SampleSet)
  active : List ℕ
deriving DecidableEq, Repr

/-- Freshly constructed account: disconnected sentinel uid, anonymous
token, empty caches. -/
def initState : AccState :=
  { uid := -1000, safeTok := none, devices := [], sensors := [],
    sensorsRaw := [], active := [] }

/-- Query surfaces of the cloud. -/
inductive QueryType : Type
  | api
  | device
deriving DecidableEq, Repr

/-- Parsed JSON response, reduced to the code fields _query inspects. -/
structure Resp : Type where
  code : ℤ
  returnCode : ℤ
deriving DecidableEq, Repr

/-- Response classification of _query: a transport failure (none) yields
no result; on the account surface only code 2000 passes; on the device
surface a non-zero returnCode yields no result and resets the session uid
to the disconnected sentinel. -/
def queryClassify (qt : QueryType) (net : Option Resp) (uid : ℤ) :
    Option Resp × ℤ :=
  match net with
  | none => (none, uid)
  | some r =>
    match qt with
    | QueryType.api =>
      if r.code = 102 then (none, uid)
      else if r.code = 9999 then (none, uid)
      else if r.code ≠ 2000 then (none, uid)
      else (some r, uid)
    | QueryType.device =>
      if r.returnCode ≠ 0 then (none, -1000) else (some r, uid)

/-- The is_connected property: session uid strictly positive. -/
def isConnected (uid : ℤ) : Bool := decide (uid > 0)

/-- The connect method.  `login` is the network oracle for the two
possible attempts (indexed by the force flag of the attempt); a successful
login returns the uid and token.  Result: connection status, new state,
and the number of login attempts performed. -/
def connect (force : Bool) (st : AccState) (login : Bool → Option (ℤ × ℕ)) :
    Bool × AccState × ℕ :=
  if ¬ force = true ∧ st.uid > 0 then (true, st, 0)
  else
    let st1 := { st with uid := -1000, safeTok := none }
    match login force with
    | some r =>
      (true, { st1 with uid := r.1, safeTok := some r.2, devices := [] }, 1)
    | none =>
      if hf : force = true then (false, st1, 1)
      else
        let r := connect true st1 login
        (r.1, r.2.1, r.2.2 + 1)
termination_by (if force = true then 0 else 1)
decreasing_by simp [hf]

/-- Device-map update of update_devices on a successful listing: each
returned device is stamped with the refresh timestamp and written into the
cached map under its id. -/
def mergeDevices (prev : List (ℕ × Dev)) (fresh : List Dev) (tstamp : ℤ) :
    List (ℕ × Dev) :=
  fresh.foldl (fun m d => aupdate d.deviceid { d with stamp := some tstamp } m) prev

/-- State effect of a successful update_devices: merge the fresh list into
the device cache, then give every cached device id a (possibly empty)
history entry. -/
def updateDevicesApply (st : AccState) (fresh : List Dev) (tstamp : ℤ) : AccState :=
  let devs := mergeDevices st.devices fresh tstamp
  { st with
    devices := devs,
    sensors := (akeys devs).foldl (fun m k => asetdefault k ([] : Hist) m) st.sensors }

/-- State effect of get_sensors: ensure the device has a history entry,
then replace it by its pruned form.  The sensorsRaw map is untouched. -/
def gsPrune (now window : ℤ) (st : AccState) (d : ℕ) : AccState :=
  let sens0 := asetdefault d ([] : Hist) st.sensors
  let hist := (alookup d sens0).getD []
  { st with sensors := aupdate d (pruneHistory (now - window) hist) sens0 }

/-- The get_sensors method for one device: prune the stored history in
place, return None (inner none) when nothing remains, otherwise average
the window against the raw snapshot.  The outer none is the KeyError
path (raw snapshot missing, or an accumulator key error). -/
def getSensorsFull (now window : ℤ) (units : ℕ → CUnit) (st : AccState) (d : ℕ) :
    Option (Option SampleSet) × AccState :=
  let sens0 := asetdefault d ([] : Hist) st.sensors
  let hist := (alookup d sens0).getD []
  let cutoff := now - window
  let pruned := pruneHistory cutoff hist
  let result : Option (Option SampleSet) :=
    if pruned = [] then some none
    else
      match alookup d st.sensorsRaw with
      | none => none
      | some rw => (computeAvg now cutoff units pruned rw).map some
  (result, gsPrune now window st d)

/-- Observable operations that mutate the account state.  A real
_fetch_sensors call first runs update_devices and then, on a successful
device query, stores the ingested sample set; that composite is reachable
here as an updateDevicesOk step followed by a fetchOk step. -/
inductive Op : Type
  | connectOk (uid : ℤ) (tok : ℕ)
  | connectFail
  | updateDevicesOk (fresh : List Dev) (tstamp : ℤ)
  | deviceQueryFail
  | fetchOk (d : ℕ) (ts : ℤ) (res : SampleSet)
  | fetchFail (d : ℕ)
  | getSens (d : ℕ) (now window : ℤ)
  | setActive (ds : List ℕ)
deriving DecidableEq, Repr

/-- One state transition per operation, straight from the corresponding
method body.  fetchOk writes the ingested sample set into the history and
the raw snapshot together (lines 467-468); its guard is the device check
at line 433 plus the history-map indexing at line 467, both of which leave
the state unchanged when they fail. -/
def step (st : AccState) : Op → AccState
  | Op.connectOk u tok => { st with uid := u, safeTok := some tok, devices := [] }
  | Op.connectFail => { st with uid := -1000, safeTok := none }
  | Op.updateDevicesOk fresh t => updateDevicesApply st fresh t
  | Op.deviceQueryFail => { st with uid := -1000 }
  | Op.fetchOk d ts res =>
    if ((alookup d st.devices).isSome && (alookup d st.sensors).isSome) = true then
      { st with
        sensors := aupdate d (aupdate ts res ((alookup d st.sensors).getD [])) st.sensors,
        sensorsRaw := aupdate d res st.sensorsRaw }
    else st
  | Op.fetchFail _ => st
  | Op.getSens d now window => gsPrune now window st d
  | Op.setActive ds =>
    { st with active := ds,
              sensors := ds.foldl (fun m k => asetdefault k ([] : Hist) m) st.sensors }

/-- Account state after a sequence of operations from a fresh account. -/
def run (ops : List Op) : AccState := ops.foldl step initState

/-! ## Concrete instances used by the worked examples -/

/-- History of the worked averaging example of the spec: a sample of 10
for sensor 7 at the cutoff instant 0 and a sample of 20 at instant 5. -/
def exHistC1 : Hist := [(0, [(7, PyNum.int 10)]), (5, [(7, PyNum.int 20)])]

/-- Raw snapshot matching the latest sample of the averaging example. -/
def exRawC1 : SampleSet := [(7, PyNum.int 20)]

/-- History of the pruning example: three samples at 10, 20 and 30. -/
def exHistC3 : Hist :=
  [(10, [(7, PyNum.int 1)]), (20, [(7, PyNum.int 2)]), (30, [(7, PyNum.int 3)])]

/-- A cached device with id 1. -/
def devX : Dev := { deviceid := 1, deviceToken := 11, stamp := none }

/-- A fresh device with id 2. -/
def devY : Dev := { deviceid := 2, deviceToken := 22, stamp := none }

/-- An account state whose device cache already holds device 1. -/
def stC6 : AccState := { initState with devices := [(1, devX)] }

/-- Raw snapshot holding sensor ids 1 and 7, for the passthrough example. -/
def rawC8 : SampleSet := [(1, PyNum.int 33), (7, PyNum.int 20)]

/-- An account state with a stored history and raw snapshot for device 5. -/
def stC8 : AccState :=
  { initState with sensors := [(5, exHistC1)], sensorsRaw := [(5, rawC8)] }

/-- Device-list refresh followed by a successful ingest for device 2. -/
def opsC10 : List Op := [Op.updateDevicesOk [devY] 0, Op.fetchOk 2 5 [(7, PyNum.int 3)]]

/-- Invariant: a device with a non-empty stored history has a raw
snapshot. -/
def sensorsRawInv (st : AccState) : Prop :=
  ∀ d h, alookup d st.sensors = some h → h ≠ [] →
    (alookup d st.sensorsRaw).isSome = true

/-! ## Association list lemmas -/

section AListLemmas

variable {κ α : Type} [DecidableEq κ]

@[simp] theorem alookup_nil (k : κ) : alookup (α := α) k [] = none := rfl

theorem alookup_cons (k k1 : κ) (v : α) (t : List (κ × α)) :
    alookup k ((k1, v) :: t) = if k1 = k then some v else alookup k t := rfl

@[simp] theorem akeys_nil : akeys ([] : List (κ × α)) = [] := rfl

@[simp] theorem akeys_cons (k1 : κ) (v : α) (t : List (κ × α)) :
    akeys ((k1, v) :: t) = k1 :: akeys t := rfl

theorem alookup_append (k : κ) (l1 l2 : List (κ × α)) :
    alookup k (l1 ++ l2) =
      match alookup k l1 with
      | some v => some v
      | none => alookup k l2 := by
  induction l1 with
  | nil => simp
  | cons p t ih =>
    obtain ⟨k1, v⟩ := p
    by_cases h : k1 = k <;> simp [alookup_cons, h, ih]

theorem alookup_isSome_iff_mem_akeys (k : κ) (l : List (κ × α)) :
    (alookup k l).isSome = true ↔ k ∈ akeys l := by
  induction l with
  | nil => simp
  | cons p t ih =>
    obtain ⟨k1, v⟩ := p
    by_cases h : k1 = k
    · subst h; simp [alookup_cons]
    · rw [alookup_cons, if_neg h, akeys_cons]
      constructor
      · intro hs; exact List.mem_cons_of_mem _ (ih.1 hs)
      · intro hm
        rcases List.mem_cons.1 hm with h1 | h1
        · exact absurd h1.symm h
        · exact ih.2 h1

theorem alookup_eq_none_of_not_mem (k : κ) (l : List (κ × α)) (h : k ∉ akeys l) :
    alookup k l = none := by
  cases hl : alookup k l with
  | none => rfl
  | some v =>
    exact absurd ((alookup_isSome_iff_mem_akeys k l).1 (by simp [hl])) h

theorem exists_alookup_eq_some_of_mem (k : κ) (l : List (κ × α)) (h : k ∈ akeys l) :
    ∃ v, alookup k l = some v := by
  have := (alookup_isSome_iff_mem_akeys k l).2 h
  cases hl : alookup k l with
  | none => rw [hl] at this; simp at this
  | some v => exact ⟨v, rfl⟩

@[simp] theorem alookup_aupdate_self (k : κ) (v : α) (l : List (κ × α)) :
    alookup k (aupdate k v l) = some v := by
  induction l with
  | nil => simp [aupdate, alookup_cons]
  | cons p t ih =>
    obtain ⟨k1, v1⟩ := p
    by_cases h : k1 = k <;> simp [aupdate, h, alookup_cons, ih]

theorem alookup_aupdate_ne (k k1 : κ) (v : α) (l : List (κ × α)) (h : k1 ≠ k) :
    alookup k (aupdate k1 v l) = alookup k l := by
  induction l with
  | nil => simp [aupdate, alookup_cons, h]
  | cons p t ih =>
    obtain ⟨k2, v2⟩ := p
    by_cases h2 : k2 = k1
    · subst h2; simp [aupdate, alookup_cons, h]
    · simp only [aupdate, if_neg h2]
      by_cases h3 : k2 = k <;> simp [alookup_cons, h3, ih]

theorem akeys_aupdate_of_mem (k : κ) (v : α) (l : List (κ × α)) (h : k ∈ akeys l) :
    akeys (aupdate k v l) = akeys l := by
  induction l with
  | nil => simp at h
  | cons p t ih =>
    obtain ⟨k1, v1⟩ := p
    rw [akeys_cons] at h
    by_cases h1 : k1 = k
    · subst h1; simp [aupdate]
    · rcases List.mem_cons.1 h with h2 | h2
      · exact absurd h2.symm h1
      · simp only [aupdate, if_neg h1, akeys_cons, ih h2]

theorem asetdefault_of_isSome (k : κ) (v : α) (l : List (κ × α))
    (h : (alookup k l).isSome = true) : asetdefault k v l = l := by
  simp [asetdefault, h]

theorem alookup_asetdefault_self (k : κ) (v : α) (l : List (κ × α)) :
    alookup k (asetdefault k v l) = some ((alookup k l).getD v) := by
  unfold asetdefault
  cases hl : alookup k l with
  | some w => simp [hl]
  | none =>
    simp only [hl, Option.isSome_none, Bool.false_eq_true, if_false, Option.getD_none]
    rw [alookup_append, hl]
    simp [alookup_cons]

theorem alookup_asetdefault_ne (k k1 : κ) (v : α) (l : List (κ × α)) (h : k1 ≠ k) :
    alookup k (asetdefault k1 v l) = alookup k l := by
  unfold asetdefault
  split
  · rfl
  · rw [alookup_append]
    cases hl : alookup k l with
    | some w => simp
    | none => simp [alookup_cons, h]

end AListLemmas

/-! ## Fold lemmas for max and min -/

section FoldMax

theorem foldl_max_eq_or_mem (xs : List ℤ) (x : ℤ) :
    xs.foldl max x = x ∨ xs.foldl max x ∈ xs := by
  induction xs generalizing x with
  | nil => left; rfl
  | cons y ys ih =>
    rcases ih (max x y) with h | h
    · rcases le_or_lt x y with hxy | hxy
      · right; rw [List.foldl_cons, h, max_eq_right hxy]; exact List.mem_cons_self _ _
      · left; rw [List.foldl_cons, h, max_eq_left hxy.le]
    · right; exact List.mem_cons_of_mem _ h

theorem init_le_foldl_max (xs : List ℤ) (x : ℤ) : x ≤ xs.foldl max x := by
  induction xs generalizing x with
  | nil => exact le_refl x
  | cons y ys ih => exact le_trans (le_max_left x y) (ih (max x y))

theorem mem_le_foldl_max (xs : List ℤ) (x y : ℤ) (h : y ∈ xs) : y ≤ xs.foldl max x := by
  induction xs generalizing x with
  | nil => simp at h
  | cons z zs ih =>
    rcases List.mem_cons.1 h with h1 | h1
    · subst h1; exact le_trans (le_max_right x y) (init_le_foldl_max zs _)
    · exact ih _ h1

theorem foldl_min_eq_or_mem (xs : List ℤ) (x : ℤ) :
    xs.foldl min x = x ∨ xs.foldl min x ∈ xs := by
  induction xs generalizing x with
  | nil => left; rfl
  | cons y ys ih =>
    rcases ih (min x y) with h | h
    · rcases le_or_lt x y with hxy | hxy
      · left; rw [List.foldl_cons, h, min_eq_left hxy]
      · right; rw [List.foldl_cons, h, min_eq_right hxy.le]
        exact List.mem_cons_self _ _
    · right; exact List.mem_cons_of_mem _ h

theorem foldl_min_le_init (xs : List ℤ) (x : ℤ) : xs.foldl min x ≤ x := by
  induction xs generalizing x with
  | nil => exact le_refl x
  | cons y ys ih => exact le_trans (ih (min x y)) (min_le_left x y)

theorem foldl_min_le_mem (xs : List ℤ) (x y : ℤ) (h : y ∈ xs) : xs.foldl min x ≤ y := by
  induction xs generalizing x with
  | nil => simp at h
  | cons z zs ih =>
    rcases List.mem_cons.1 h with h1 | h1
    · subst h1; exact le_trans (foldl_min_le_init zs _) (min_le_right x y)
    · exact ih _ h1

end FoldMax

/-! ## Pruning lemmas -/

section PruneLemmas

variable {α : Type}

theorem mem_belowKeys (cutoff : ℤ) (h : List (ℤ × α)) (t : ℤ) :
    t ∈ belowKeys cutoff h ↔ t ∈ h.map Prod.fst ∧ t ≤ cutoff := by
  simp [belowKeys, List.mem_filter]

theorem mem_pruneHistory (cutoff : ℤ) (h : List (ℤ × α)) (p : ℤ × α) :
    p ∈ pruneHistory cutoff h ↔ p ∈ h ∧ tsMinOf cutoff h ≤ p.1 := by
  simp [pruneHistory, List.mem_filter]

theorem tsMinOf_of_no_below (cutoff : ℤ) (h : List (ℤ × α))
    (hb : belowKeys cutoff h = []) : tsMinOf cutoff h = cutoff := by
  unfold tsMinOf
  rw [hb]

theorem tsMinOf_mem_belowKeys (cutoff : ℤ) (h : List (ℤ × α))
    (hb : belowKeys cutoff h ≠ []) : tsMinOf cutoff h ∈ belowKeys cutoff h := by
  unfold tsMinOf
  cases hbk : belowKeys cutoff h with
  | nil => exact absurd hbk hb
  | cons x xs =>
    show List.foldl max x xs ∈ x :: xs
    rcases foldl_max_eq_or_mem xs x with h1 | h1
    · rw [h1]; exact List.mem_cons_self _ _
    · exact List.mem_cons_of_mem _ h1

theorem le_tsMinOf_of_mem_belowKeys (cutoff : ℤ) (h : List (ℤ × α)) (t : ℤ)
    (ht : t ∈ belowKeys cutoff h) : t ≤ tsMinOf cutoff h := by
  unfold tsMinOf
  cases hbk : belowKeys cutoff h with
  | nil => rw [hbk] at ht; simp at ht
  | cons x xs =>
    show t ≤ List.foldl max x xs
    rw [hbk] at ht
    rcases List.mem_cons.1 ht with h1 | h1
    · subst h1; exact init_le_foldl_max xs t
    · exact mem_le_foldl_max xs x t h1

theorem pruneHistory_eq_self_of_all (cutoff : ℤ) (l : List (ℤ × α))
    (hall : ∀ p ∈ l, tsMinOf cutoff l ≤ p.1) : pruneHistory cutoff l = l := by
  unfold pruneHistory
  rw [List.filter_eq_self]
  intro p hp
  simpa using hall p hp

theorem pruneHistory_eq_self_of_no_below (cutoff : ℤ) (h : List (ℤ × α))
    (hb : belowKeys cutoff h = []) : pruneHistory cutoff h = h := by
  apply pruneHistory_eq_self_of_all
  intro p hp
  have hnot : p.1 ∉ belowKeys cutoff h := by rw [hb]; simp
  have : ¬ p.1 ≤ cutoff := fun hle =>
    hnot ((mem_belowKeys cutoff h p.1).2 ⟨List.mem_map_of_mem Prod.fst hp, hle⟩)
  rw [tsMinOf_of_no_below cutoff h hb]
  exact le_of_lt (lt_of_not_le this)

theorem pruneHistory_ne_nil (cutoff : ℤ) (h : List (ℤ × α)) (hne : h ≠ []) :
    pruneHistory cutoff h ≠ [] := by
  cases hbk : belowKeys cutoff h with
  | nil => rw [pruneHistory_eq_self_of_no_below cutoff h hbk]; exact hne
  | cons x xs =>
    have hmem := tsMinOf_mem_belowKeys cutoff h (by rw [hbk]; simp)
    have hkey : tsMinOf cutoff h ∈ h.map Prod.fst :=
      ((mem_belowKeys cutoff h _).1 hmem).1
    rcases List.mem_map.1 hkey with ⟨p, hp, hp1⟩
    have : p ∈ pruneHistory cutoff h :=
      (mem_pruneHistory cutoff h p).2 ⟨hp, by rw [hp1]⟩
    exact List.ne_nil_of_mem this

theorem tsMinOf_pruneHistory (cutoff : ℤ) (h : List (ℤ × α))
    (hb : belowKeys cutoff h ≠ []) :
    tsMinOf cutoff (pruneHistory cutoff h) = tsMinOf cutoff h := by
  set M := tsMinOf cutoff h with hM
  have hMb : M ∈ belowKeys cutoff h := tsMinOf_mem_belowKeys cutoff h hb
  have hMle : M ≤ cutoff := ((mem_belowKeys cutoff h M).1 hMb).2
  have hMkey : M ∈ h.map Prod.fst := ((mem_belowKeys cutoff h M).1 hMb).1
  have hall : ∀ t ∈ belowKeys cutoff (pruneHistory cutoff h), t = M := by
    intro t ht
    rcases (mem_belowKeys cutoff _ t).1 ht with ⟨htk, htle⟩
    rcases List.mem_map.1 htk with ⟨p, hp, hp1⟩
    rcases (mem_pruneHistory cutoff h p).1 hp with ⟨hph, hpge⟩
    have htb : t ∈ belowKeys cutoff h :=
      (mem_belowKeys cutoff h t).2 ⟨List.mem_map.2 ⟨p, hph, hp1⟩, htle⟩
    exact le_antisymm (le_tsMinOf_of_mem_belowKeys cutoff h t htb) (hp1 ▸ hpge)
  have hMb2 : M ∈ belowKeys cutoff (pruneHistory cutoff h) := by
    rcases List.mem_map.1 hMkey with ⟨p, hp, hp1⟩
    have hpp : p ∈ pruneHistory cutoff h :=
      (mem_pruneHistory cutoff h p).2 ⟨hp, by rw [hp1]⟩
    exact (mem_belowKeys cutoff _ M).2 ⟨List.mem_map.2 ⟨p, hpp, hp1⟩, hMle⟩
  have hb2 : belowKeys cutoff (pruneHistory cutoff h) ≠ [] :=
    List.ne_nil_of_mem hMb2
  have := tsMinOf_mem_belowKeys cutoff (pruneHistory cutoff h) hb2
  exact hall _ this

/-- Pruning twice with the same cutoff changes nothing more. -/
theorem pruneHistory_idem (cutoff : ℤ) (h : List (ℤ × α)) :
    pruneHistory cutoff (pruneHistory cutoff h) = pruneHistory cutoff h := by
  cases hbk : belowKeys cutoff h with
  | nil =>
    rw [pruneHistory_eq_self_of_no_below cutoff h hbk,
      pruneHistory_eq_self_of_no_below cutoff h hbk]
  | cons x xs =>
    have hb : belowKeys cutoff h ≠ [] := by rw [hbk]; simp
    apply pruneHistory_eq_self_of_all
    intro p hp
    rw [tsMinOf_pruneHistory cutoff h hb]
    exact ((mem_pruneHistory cutoff h p).1 hp).2

theorem tsMinOf_eq_of_isGreatestBelow (cutoff : ℤ) (h : List (ℤ × α))
    (T : ℤ) (hT : isGreatestBelow cutoff h T) : tsMinOf cutoff h = T := by
  obtain ⟨hTk, hTle, hTmax⟩ := hT
  have hTb : T ∈ belowKeys cutoff h := (mem_belowKeys cutoff h T).2 ⟨hTk, hTle⟩
  have hb : belowKeys cutoff h ≠ [] := List.ne_nil_of_mem hTb
  have hmem := tsMinOf_mem_belowKeys cutoff h hb
  rcases (mem_belowKeys cutoff h _).1 hmem with ⟨hk, hle⟩
  exact le_antisymm (hTmax _ hk hle) (le_tsMinOf_of_mem_belowKeys cutoff h T hTb)

theorem minKey_eq_of_isLeastKey (h : List (ℤ × α)) (T : ℤ)
    (hT : isLeastKey h T) : minKey h = T := by
  obtain ⟨hTk, hTmin⟩ := hT
  cases h with
  | nil => simp at hTk
  | cons p r =>
    obtain ⟨t0, v0⟩ := p
    show (r.map Prod.fst).foldl min t0 = T
    have hTk2 : T ∈ t0 :: r.map Prod.fst := by simpa using hTk
    have hle : (r.map Prod.fst).foldl min t0 ≤ T := by
      rcases List.mem_cons.1 hTk2 with h1 | h1
      · subst h1; exact foldl_min_le_init _ T
      · exact foldl_min_le_mem _ t0 T h1
    have hge : T ≤ (r.map Prod.fst).foldl min t0 := by
      rcases foldl_min_eq_or_mem (r.map Prod.fst) t0 with h1 | h1
      · rw [h1]
        exact hTmin t0 (by simp)
      · exact hTmin _ (by simpa using List.mem_cons_of_mem t0 h1)
    exact le_antisymm hle hge

end PruneLemmas

/-! ## Rounding lemmas -/

theorem floorQ_eq_floor (q : ℚ) : floorQ q = ⌊q⌋ := Rat.floor_def.symm

theorem ceilQ_eq_ceil (q : ℚ) : ceilQ q = ⌈q⌉ := by
  rw [ceilQ, floorQ_eq_floor, Int.floor_neg, neg_neg]

/-- truncQ is truncation toward zero. -/
theorem truncQ_eq (q : ℚ) : truncQ q = if 0 ≤ q then ⌊q⌋ else ⌈q⌉ := by
  unfold truncQ
  split
  · exact floorQ_eq_floor q
  · exact ceilQ_eq_ceil q

/-! ## PyNum lemmas -/

theorem PyNum.toRat_add (a b : PyNum) : (a.add b).toRat = a.toRat + b.toRat := by
  cases a <;> cases b <;> simp [PyNum.add, PyNum.toRat]

theorem PyNum.toRat_mulInt (a : PyNum) (n : ℤ) :
    (a.mulInt n).toRat = a.toRat * (n : ℚ) := by
  cases a <;> simp [PyNum.mulInt, PyNum.toRat]

/-! ## qval lemmas -/

theorem qval_of_alookup (s : ℕ) (l : SampleSet) (v : PyNum)
    (h : alookup s l = some v) : qval s l = v.toRat := by
  simp [qval, h]

theorem qval_of_not_mem (s : ℕ) (l : SampleSet) (h : s ∉ akeys l) : qval s l = 0 := by
  simp [qval, alookup_eq_none_of_not_mem s l h]

theorem qval_aupdate_self (k : ℕ) (v : PyNum) (l : SampleSet) :
    qval k (aupdate k v l) = v.toRat := by
  simp [qval]

theorem qval_aupdate_ne (k s : ℕ) (v : PyNum) (l : SampleSet) (h : k ≠ s) :
    qval s (aupdate k v l) = qval s l := by
  simp [qval, alookup_aupdate_ne s k v l h]

theorem qval_cons (s k : ℕ) (v : PyNum) (t : SampleSet) :
    qval s ((k, v) :: t) = if k = s then v.toRat else qval s t := by
  by_cases h : k = s <;> simp [qval, alookup_cons, h]

/-! ## Seed lemmas -/

theorem mem_asetdefault {κ α : Type} [DecidableEq κ] (k : κ) (v : α)
    (m : List (κ × α)) (p : κ × α) (hp : p ∈ asetdefault k v m) :
    p ∈ m ∨ p = (k, v) := by
  unfold asetdefault at hp
  split at hp
  · exact Or.inl hp
  · rcases List.mem_append.1 hp with h | h
    · exact Or.inl h
    · right; simpa using h

theorem mem_akeys_asetdefault {κ α : Type} [DecidableEq κ] (k k1 : κ) (v : α)
    (m : List (κ × α)) :
    k ∈ akeys (asetdefault k1 v m) ↔ k ∈ akeys m ∨ k = k1 := by
  unfold asetdefault
  split
  · rename_i hs
    have hk1 : k1 ∈ akeys m := (alookup_isSome_iff_mem_akeys k1 m).1 hs
    constructor
    · exact Or.inl
    · rintro (h | rfl)
      · exact h
      · exact hk1
  · simp [akeys]

theorem akeys_asetdefault_nodup {κ α : Type} [DecidableEq κ] (k : κ) (v : α)
    (m : List (κ × α)) (h : (akeys m).Nodup) :
    (akeys (asetdefault k v m)).Nodup := by
  unfold asetdefault
  split
  · exact h
  · rename_i hns
    have hnotmem : k ∉ akeys m := fun hm =>
      hns ((alookup_isSome_iff_mem_akeys k m).2 hm)
    have hak : akeys (m ++ [(k, v)]) = akeys m ++ [k] := by simp [akeys]
    rw [hak]
    simp [List.nodup_append, h, hnotmem]

theorem seedFold_spec (l : SampleSet) :
    ∀ acc : SampleSet,
      (∀ p ∈ acc, p.2 = PyNum.int 0) → (akeys acc).Nodup →
      (∀ p ∈ l.foldl (fun r q => asetdefault q.1 (PyNum.int 0) r) acc,
        p.2 = PyNum.int 0) ∧
      (akeys (l.foldl (fun r q => asetdefault q.1 (PyNum.int 0) r) acc)).Nodup ∧
      (∀ k, k ∈ akeys (l.foldl (fun r q => asetdefault q.1 (PyNum.int 0) r) acc) ↔
        k ∈ akeys acc ∨ k ∈ akeys l) := by
  induction l with
  | nil =>
    intro acc hz hnd
    exact ⟨hz, hnd, fun k => by simp⟩
  | cons q rest ih =>
    intro acc hz hnd
    obtain ⟨k0, v0⟩ := q
    have hz1 : ∀ p ∈ asetdefault k0 (PyNum.int 0) acc, p.2 = PyNum.int 0 := by
      intro p hp
      rcases mem_asetdefault k0 (PyNum.int 0) acc p hp with h | h
      · exact hz p h
      · rw [h]
    have hnd1 := akeys_asetdefault_nodup k0 (PyNum.int 0) acc hnd
    obtain ⟨ha, hb, hc⟩ := ih (asetdefault k0 (PyNum.int 0) acc) hz1 hnd1
    refine ⟨ha, hb, ?_⟩
    intro k
    rw [List.foldl_cons] at *
    rw [hc k, mem_akeys_asetdefault]
    simp only [akeys_cons, List.mem_cons]
    tauto

theorem seedRes_spec (raw : SampleSet) :
    (∀ p ∈ seedRes raw, p.2 = PyNum.int 0) ∧
    (akeys (seedRes raw)).Nodup ∧
    (∀ k, k ∈ akeys (seedRes raw) ↔ k ∈ akeys raw) := by
  obtain ⟨ha, hb, hc⟩ := seedFold_spec raw [] (by simp) (by simp)
  exact ⟨ha, hb, fun k => by rw [seedRes, hc k]; simp⟩

theorem alookup_mem {κ α : Type} [DecidableEq κ] (k : κ) (l : List (κ × α)) (v : α)
    (h : alookup k l = some v) : (k, v) ∈ l := by
  induction l with
  | nil => simp at h
  | cons p t ih =>
    obtain ⟨k1, v1⟩ := p
    rw [alookup_cons] at h
    by_cases h1 : k1 = k
    · rw [if_pos h1] at h
      injection h with h
      subst h1
      subst h
      simp
    · rw [if_neg h1] at h
      exact List.mem_cons_of_mem _ (ih h)

theorem qval_seedRes (raw : SampleSet) (s : ℕ) : qval s (seedRes raw) = 0 := by
  obtain ⟨ha, _, _⟩ := seedRes_spec raw
  cases hl : alookup s (seedRes raw) with
  | none => simp [qval, hl]
  | some v =>
    have hv := ha (s, v) (alookup_mem s (seedRes raw) v hl)
    simp only at hv
    simp [qval, hl, hv, PyNum.toRat]

/-! ## addScaled and sumLoop correspondence -/

theorem addScaled_spec (dt : ℤ) : ∀ (data res : SampleSet),
    (∀ k ∈ akeys data, k ∈ akeys res) → (akeys data).Nodup →
    ∃ out, addScaled dt res data = some out ∧ akeys out = akeys res ∧
      ∀ s, qval s out = qval s res + qval s data * (dt : ℚ) := by
  intro data
  induction data with
  | nil =>
    intro res hsub hnd
    refine ⟨res, rfl, rfl, fun s => ?_⟩
    simp [qval]
  | cons p rest ih =>
    obtain ⟨k0, v0⟩ := p
    intro res hsub hnd
    have hk0 : k0 ∈ akeys res := hsub k0 (by simp)
    obtain ⟨cur, hcur⟩ := exists_alookup_eq_some_of_mem k0 res hk0
    have hkeys1 : akeys (aupdate k0 (cur.add (v0.mulInt dt)) res) = akeys res :=
      akeys_aupdate_of_mem k0 _ res hk0
    have hnd0 := List.nodup_cons.1 (by simpa using hnd)
    have hsub1 : ∀ k ∈ akeys rest, k ∈ akeys (aupdate k0 (cur.add (v0.mulInt dt)) res) := by
      intro k hk; rw [hkeys1]; exact hsub k (by simp [hk])
    obtain ⟨out, hout, hkeys, hq⟩ := ih (aupdate k0 (cur.add (v0.mulInt dt)) res) hsub1 hnd0.2
    refine ⟨out, ?_, by rw [hkeys, hkeys1], ?_⟩
    · show addScaled dt res ((k0, v0) :: rest) = some out
      unfold addScaled
      rw [hcur]
      exact hout
    · intro s
      rw [hq s, qval_cons]
      by_cases hs : k0 = s
      · subst hs
        rw [if_pos rfl, qval_aupdate_self, PyNum.toRat_add, PyNum.toRat_mulInt,
          qval_of_not_mem k0 rest hnd0.1, qval_of_alookup k0 res cur hcur]
        ring
      · rw [if_neg hs, qval_aupdate_ne k0 s _ res hs]

theorem sumLoop_spec (now cutoff : ℤ) :
    ∀ (hist : Hist) (lastTs : ℤ) (lastData res : SampleSet),
    (∀ p ∈ hist, (∀ k ∈ akeys p.2, k ∈ akeys res) ∧ (akeys p.2).Nodup) →
    (∀ k ∈ akeys lastData, k ∈ akeys res) → (akeys lastData).Nodup →
    ∃ out, sumLoop now cutoff hist lastTs lastData res = some out ∧
      akeys out = akeys res ∧
      ∀ s, qval s out =
        zohGo now cutoff s hist lastTs (qval s lastData) (qval s res) := by
  intro hist
  induction hist with
  | nil =>
    intro lastTs lastData res hh hsub hnd
    obtain ⟨out, hout, hkeys, hq⟩ := addScaled_spec (now - lastTs + 1) lastData res hsub hnd
    refine ⟨out, hout, hkeys, fun s => ?_⟩
    rw [hq s]
    show _ = zohGo now cutoff s [] lastTs (qval s lastData) (qval s res)
    unfold zohGo
    ring_nf
  | cons p rest ih =>
    obtain ⟨ts, data⟩ := p
    intro lastTs lastData res hh hsub hnd
    have hdata := hh (ts, data) (by simp)
    by_cases hdt : ts - lastTs > 0
    · obtain ⟨res1, hres1, hkeys1, hq1⟩ := addScaled_spec (ts - lastTs) lastData res hsub hnd
      have hh1 : ∀ p ∈ rest, (∀ k ∈ akeys p.2, k ∈ akeys res1) ∧ (akeys p.2).Nodup := by
        intro p hp
        exact ⟨fun k hk => by rw [hkeys1]; exact (hh p (by simp [hp])).1 k hk,
          (hh p (by simp [hp])).2⟩
      have hsubd : ∀ k ∈ akeys data, k ∈ akeys res1 := by
        intro k hk; rw [hkeys1]; exact hdata.1 k hk
      obtain ⟨out, hout, hkeys, hq⟩ := ih (max ts cutoff) data res1 hh1 hsubd hdata.2
      refine ⟨out, ?_, by rw [hkeys, hkeys1], ?_⟩
      · show sumLoop now cutoff ((ts, data) :: rest) lastTs lastData res = some out
        unfold sumLoop
        rw [if_pos hdt, hres1]
        exact hout
      · intro s
        rw [hq s, hq1 s]
        simp only [zohGo]
        rw [if_pos hdt]
    · have hh1 : ∀ p ∈ rest, (∀ k ∈ akeys p.2, k ∈ akeys res) ∧ (akeys p.2).Nodup :=
        fun p hp => hh p (by simp [hp])
      obtain ⟨out, hout, hkeys, hq⟩ := ih (max ts cutoff) data res hh1 hdata.1 hdata.2
      refine ⟨out, ?_, hkeys, ?_⟩
      · show sumLoop now cutoff ((ts, data) :: rest) lastTs lastData res = some out
        unfold sumLoop
        rw [if_neg hdt]
        exact hout
      · intro s
        rw [hq s]
        simp only [zohGo]
        rw [if_neg hdt]

/-! ## Post-processing correspondence -/

theorem postProcessGo_spec (raw : SampleSet) (len : ℤ) (units : ℕ → CUnit) :
    ∀ l : SampleSet, (1 ∈ akeys l → 1 ∈ akeys raw) →
    ∃ out, postProcessGo raw len units l = some out ∧ akeys out = akeys l ∧
      ∀ s v, alookup s l = some v → alookup s out = postVal raw len units s v := by
  intro l
  induction l with
  | nil => exact fun _ => ⟨[], rfl, rfl, fun s v hv => by simp at hv⟩
  | cons p rest ih =>
    obtain ⟨s0, v0⟩ := p
    intro h1
    have hnv : ∃ nv, postVal raw len units s0 v0 = some nv := by
      by_cases hs0 : s0 = 1
      · subst hs0
        obtain ⟨w, hw⟩ := exists_alookup_eq_some_of_mem 1 raw (h1 (by simp))
        exact ⟨w, by simp [postVal, hw]⟩
      · unfold postVal
        rw [if_neg hs0]
        by_cases hu : units s0 = CUnit.ppm ∨ units s0 = CUnit.ppb
        · exact ⟨_, by rw [if_pos hu]⟩
        · exact ⟨_, by rw [if_neg hu]⟩
    obtain ⟨nv, hnv⟩ := hnv
    obtain ⟨out1, hout1, hkeys1, hlook1⟩ := ih (fun hm => h1 (by simp [hm]))
    refine ⟨(s0, nv) :: out1, ?_, by simp [hkeys1], ?_⟩
    · unfold postProcessGo
      rw [hnv, hout1]
    · intro s v hv
      rw [alookup_cons] at hv
      by_cases hs : s0 = s
      · subst hs
        rw [if_pos rfl] at hv
        injection hv with hv
        subst hv
        rw [alookup_cons, if_pos rfl, hnv]
      · rw [if_neg hs] at hv
        rw [alookup_cons, if_neg hs]
        exact hlook1 s v hv

/-! ## Full averaging pipeline -/

theorem computeAvg_spec (now cutoff : ℤ) (units : ℕ → CUnit) (pruned : Hist)
    (raw : SampleSet) (hwf : histWF raw pruned) :
    ∃ res2 out,
      sumLoop now cutoff pruned cutoff (seedRes raw) (seedRes raw) = some res2 ∧
      computeAvg now cutoff units pruned raw = some out ∧
      (∀ k, k ∈ akeys out ↔ k ∈ akeys raw) ∧
      (∀ s, qval s res2 = zohSum now cutoff s pruned) ∧
      (∀ s, s ∈ akeys raw → ∃ v, alookup s res2 = some v ∧
        alookup s out = postVal raw (avgLength now cutoff pruned) units s v) := by
  obtain ⟨hz, hnd, hmem⟩ := seedRes_spec raw
  have hh : ∀ p ∈ pruned,
      (∀ k ∈ akeys p.2, k ∈ akeys (seedRes raw)) ∧ (akeys p.2).Nodup := by
    intro p hp
    exact ⟨fun k hk => (hmem k).2 ((hwf p hp).1 k hk), (hwf p hp).2⟩
  obtain ⟨res2, hres2, hkeys2, hq2⟩ :=
    sumLoop_spec now cutoff pruned cutoff (seedRes raw) (seedRes raw) hh
      (fun k hk => hk) hnd
  have h1m : 1 ∈ akeys res2 → 1 ∈ akeys raw := by
    intro hm
    rw [hkeys2] at hm
    exact (hmem 1).1 hm
  obtain ⟨out, hout, hkeyso, hlook⟩ :=
    postProcessGo_spec raw (avgLength now cutoff pruned) units res2 h1m
  refine ⟨res2, out, hres2, ?_, ?_, ?_, ?_⟩
  · unfold computeAvg
    rw [hres2]
    exact hout
  · intro k
    rw [hkeyso, hkeys2]
    exact hmem k
  · intro s
    rw [hq2 s, qval_seedRes]
    rfl
  · intro s hs
    have hs2 : s ∈ akeys res2 := by rw [hkeys2]; exact (hmem s).2 hs
    obtain ⟨v, hv⟩ := exists_alookup_eq_some_of_mem s res2 hs2
    exact ⟨v, hv, hlook s v hv⟩

/-! ## Claims -/

/-- C2: for every stored history, get_sensors prunes to exactly the
timestamps at or above the greatest timestamp at-or-before the cutoff, so
the most recent sample at-or-before the cutoff is kept as a carry-in with
everything after it; when no timestamp is at-or-before the cutoff, the
cutoff itself is the lower bound and every entry is kept. -/
theorem claim_C2 : ∀ (cutoff : ℤ) (h : Hist),
    (∀ T, isGreatestBelow cutoff h T →
      ∀ p, p ∈ pruneHistory cutoff h ↔ p ∈ h ∧ T ≤ p.1) ∧
    ((∀ t ∈ h.map Prod.fst, ¬ t ≤ cutoff) → pruneHistory cutoff h = h) := by
  intro cutoff h
  constructor
  · intro T hT p
    rw [mem_pruneHistory, tsMinOf_eq_of_isGreatestBelow cutoff h T hT]
  · intro hnone
    apply pruneHistory_eq_self_of_no_below
    cases hbk : belowKeys cutoff h with
    | nil => rfl
    | cons x xs =>
      have hx : x ∈ belowKeys cutoff h := by rw [hbk]; simp
      rcases (mem_belowKeys cutoff h x).1 hx with ⟨hk, hle⟩
      exact absurd hle (hnone x hk)

/-- C2 witness: with cutoff 15 the greatest timestamp at-or-before the
cutoff in the example history is 10 and the carry-in entry is kept; with
cutoff 5 no timestamp is at-or-before and everything is kept. -/
theorem claim_C2_witness :
    ((10, [(7, PyNum.int 1)]) ∈ pruneHistory 15 exHistC3 ↔
      (10, [(7, PyNum.int 1)]) ∈ exHistC3 ∧ (10 : ℤ) ≤ 10) ∧
    pruneHistory 5 exHistC3 = exHistC3 :=
  ⟨(claim_C2 15 exHistC3).1 10 (by unfold isGreatestBelow; decide) (10, [(7, PyNum.int 1)]),
   (claim_C2 5 exHistC3).2 (by decide)⟩

/-- C3 counterexample: with history at 10, 20, 30, now 40 and a 25-second
retention window (cutoff 15), the pruning step does NOT drop the entry at
timestamp 10: it is the greatest timestamp at-or-before the cutoff and is
kept as the carry-in, so the kept set is not the claimed two entries. -/
theorem counterexample_C3 :
    pruneHistory (40 - 25) exHistC3
      ≠ [(20, [(7, PyNum.int 2)]), (30, [(7, PyNum.int 3)])] ∧
    (10, [(7, PyNum.int 1)]) ∈ pruneHistory (40 - 25) exHistC3 := by
  decide

/-- C3 amended: for history at timestamps 10, 20, 30 with now = 40 and a
25-second retention window (cutoff 15), the pruning step of get_sensors
keeps all three entries: 10 is the greatest timestamp at-or-before the
cutoff and is retained as the carry-in together with everything after
it. -/
theorem claim_C3 : pruneHistory (40 - 25) exHistC3 = exHistC3 := by
  decide

/-- C5: the controller considers itself connected exactly when the session
uid is greater than 0, and every device-surface query whose response
carries a non-zero returnCode resets the uid to the disconnected sentinel
-1000 and yields no result, leaving the controller disconnected. -/
theorem claim_C5 :
    (∀ uid : ℤ, isConnected uid = true ↔ uid > 0) ∧
    (∀ (r : Resp) (uid : ℤ), r.returnCode ≠ 0 →
      queryClassify QueryType.device (some r) uid = (none, -1000) ∧
      isConnected (queryClassify QueryType.device (some r) uid).2 = false) := by
  constructor
  · intro uid
    simp [isConnected]
  · intro r uid h
    constructor
    · simp [queryClassify, h]
    · simp [queryClassify, h, isConnected]

/-- C5 witness: uid 5 counts as connected; a device response with
returnCode 1 resets uid 5 to -1000 and yields no result, after which the
controller is disconnected. -/
theorem claim_C5_witness :
    isConnected 5 = true ∧
    queryClassify QueryType.device (some { code := 0, returnCode := 1 }) 5
      = (none, -1000) ∧
    isConnected (queryClassify QueryType.device
      (some { code := 0, returnCode := 1 }) 5).2 = false :=
  ⟨(claim_C5.1 5).2 (by norm_num),
   (claim_C5.2 { code := 0, returnCode := 1 } 5 (by decide)).1,
   (claim_C5.2 { code := 0, returnCode := 1 } 5 (by decide)).2⟩

/-- C7: with the parts-based preference flag set for TVOC (id 8) or HCHO
(id 7), the raw mass-concentration value m is converted to
truncate(m * 1000 * 24.45 / molarWeight) with truncation toward zero (see
truncQ_eq), every ingested value whose resolved unit is not the
mass-concentration unit is truncated to an integer, mass-concentration
values stay real, and at the boundary value 2.7 truncation gives 2 where
half-even rounding would give 3. -/
theorem claim_C7 :
    (∀ (base : ℕ → CUnit) (inSensors : ℕ → Bool) (mwTvoc mwHcho m : ℚ),
      inSensors 8 = true →
      fetchSensorValue true false (unitsOf true false inSensors base) mwTvoc mwHcho 8 m
        = PyNum.int (truncQ (m * 1000 * (489 / 20) / mwTvoc))) ∧
    (∀ (base : ℕ → CUnit) (inSensors : ℕ → Bool) (mwTvoc mwHcho m : ℚ),
      inSensors 7 = true →
      fetchSensorValue false true (unitsOf false true inSensors base) mwTvoc mwHcho 7 m
        = PyNum.int (truncQ (m * 1000 * (489 / 20) / mwHcho))) ∧
    (∀ (tvoc hcho : Bool) (units : ℕ → CUnit) (mwTvoc mwHcho m : ℚ) (s : ℕ),
      units s ≠ CUnit.mgm3 →
      ∃ z : ℤ, fetchSensorValue tvoc hcho units mwTvoc mwHcho s m = PyNum.int z) ∧
    (∀ (tvoc hcho : Bool) (units : ℕ → CUnit) (mwTvoc mwHcho m : ℚ) (s : ℕ),
      units s = CUnit.mgm3 →
      ∃ q : ℚ, fetchSensorValue tvoc hcho units mwTvoc mwHcho s m = PyNum.float q) ∧
    truncQ (27 / 10) = 2 ∧ roundHalfEven (27 / 10) = 3 := by
  refine ⟨?_, ?_, ?_, ?_, ?_, ?_⟩
  · intro base inSensors mwTvoc mwHcho m h8
    have hu : unitsOf true false inSensors base 8 = CUnit.ppb := by
      unfold unitsOf
      rw [if_pos ⟨h8, Or.inl ⟨rfl, rfl⟩⟩]
    simp only [fetchSensorValue, hu]
    rw [if_pos (show CUnit.ppb ≠ CUnit.mgm3 from by decide)]
    simp only [and_self, if_true]
    rw [show m * (1000 * (489 / 20) / mwTvoc) = m * 1000 * (489 / 20) / mwTvoc from by ring]
  · intro base inSensors mwTvoc mwHcho m h7
    have hu : unitsOf false true inSensors base 7 = CUnit.ppb := by
      unfold unitsOf
      rw [if_pos ⟨h7, Or.inr ⟨rfl, rfl⟩⟩]
    simp only [fetchSensorValue, hu]
    rw [if_pos (show CUnit.ppb ≠ CUnit.mgm3 from by decide)]
    simp only [and_self, if_true]
    rw [show m * (1000 * (489 / 20) / mwHcho) = m * 1000 * (489 / 20) / mwHcho from by ring,
      if_neg (show ¬ ((7 : ℕ) = 8 ∧ false = true) from by simp)]
  · intro tvoc hcho units mwT mwH m s h
    simp only [fetchSensorValue]
    rw [if_pos h]
    exact ⟨_, rfl⟩
  · intro tvoc hcho units mwT mwH m s h
    simp only [fetchSensorValue]
    rw [if_neg (fun hn => hn h)]
    exact ⟨_, rfl⟩
  · rw [truncQ_eq, if_pos (by norm_num : (0 : ℚ) ≤ 27 / 10)]
    norm_num [Int.floor_eq_iff]
  · have hf : floorQ (27 / 10 : ℚ) = 2 := by
      rw [floorQ_eq_floor]
      norm_num [Int.floor_eq_iff]
    rw [roundHalfEven]
    simp only [hf]
    norm_num

/-- Connect helpers: the fully forced call performs exactly one attempt. -/
theorem connect_forced (st : AccState) (login : Bool → Option (ℤ × ℕ)) :
    (login true = none → connect true st login
      = (false, { st with uid := -1000, safeTok := none }, 1)) ∧
    (∀ r, login true = some r → connect true st login
      = (true, { st with uid := r.1, safeTok := some r.2, devices := [] }, 1)) := by
  constructor
  · intro hl
    rw [connect, if_neg (by simp), hl]
    simp
  · intro r hl
    rw [connect, if_neg (by simp), hl]

/-- Connect helpers: unforced call with an invalid session and a failing
first attempt retries exactly once, forced. -/
theorem connect_unforced_fail (st : AccState) (login : Bool → Option (ℤ × ℕ))
    (hu : ¬ st.uid > 0) (hl : login false = none) :
    connect false st login =
      ((connect true { st with uid := -1000, safeTok := none } login).1,
       (connect true { st with uid := -1000, safeTok := none } login).2.1,
       (connect true { st with uid := -1000, safeTok := none } login).2.2 + 1) := by
  rw [connect, if_neg (by simp [hu]), hl]
  simp

/-- C7 witness: a TVOC reading 1 with molar weight 1000 is converted and
truncated, an HCHO reading likewise, a ppm-resolved sensor yields an int,
and a mass-concentration sensor stays a float. -/
theorem claim_C7_witness :
    fetchSensorValue true false
        (unitsOf true false (fun _ => true) (fun _ => CUnit.mgm3)) 1000 1 8 1
      = PyNum.int (truncQ ((1 : ℚ) * 1000 * (489 / 20) / 1000)) ∧
    fetchSensorValue false true
        (unitsOf false true (fun _ => true) (fun _ => CUnit.mgm3)) 1 1000 7 1
      = PyNum.int (truncQ ((1 : ℚ) * 1000 * (489 / 20) / 1000)) ∧
    (∃ z : ℤ, fetchSensorValue false false (fun _ => CUnit.ppm) 1 1 9 (5 / 2)
      = PyNum.int z) ∧
    (∃ q : ℚ, fetchSensorValue false false (fun _ => CUnit.mgm3) 1 1 9 (5 / 2)
      = PyNum.float q) :=
  ⟨claim_C7.1 (fun _ => CUnit.mgm3) (fun _ => true) 1000 1 1 rfl,
   claim_C7.2.1 (fun _ => CUnit.mgm3) (fun _ => true) 1 1000 1 rfl,
   claim_C7.2.2.1 false false (fun _ => CUnit.ppm) 1 1 (5 / 2) 9 (by decide),
   claim_C7.2.2.2.1 false false (fun _ => CUnit.mgm3) 1 1 (5 / 2) 9 rfl⟩

/-- C4: an unforced connect with an invalid session whose login query
fails performs exactly one more attempt (two in total) and returns false
exactly when the forced retry also fails; a forced connect that fails
performs one attempt and no more; no call performs a third attempt. -/
theorem claim_C4 :
    (∀ (st : AccState) (login : Bool → Option (ℤ × ℕ)),
      ¬ st.uid > 0 → login false = none →
      (connect false st login).2.2 = 2 ∧
      (login true = none → (connect false st login).1 = false)) ∧
    (∀ (st : AccState) (login : Bool → Option (ℤ × ℕ)),
      login true = none →
      (connect true st login).1 = false ∧ (connect true st login).2.2 = 1) ∧
    (∀ (force : Bool) (st : AccState) (login : Bool → Option (ℤ × ℕ)),
      (connect force st login).2.2 ≤ 2) := by
  have hforced : ∀ (st : AccState) (login : Bool → Option (ℤ × ℕ)),
      (connect true st login).2.2 = 1 := by
    intro st login
    cases hl : login true with
    | none => rw [(connect_forced st login).1 hl]
    | some r => rw [(connect_forced st login).2 r hl]
  refine ⟨?_, ?_, ?_⟩
  · intro st login hu hl
    rw [connect_unforced_fail st login hu hl]
    refine ⟨by rw [hforced], ?_⟩
    intro hl2
    rw [(connect_forced _ login).1 hl2]
  · intro st login hl
    rw [(connect_forced st login).1 hl]
    exact ⟨rfl, rfl⟩
  · intro force st login
    cases force with
    | true => rw [hforced]; norm_num
    | false =>
      by_cases hu : st.uid > 0
      · rw [connect, if_pos (by simp [hu])]
        norm_num
      · cases hl : login false with
        | none =>
          rw [connect_unforced_fail st login hu hl, hforced]
        | some r =>
          rw [connect, if_neg (by simp [hu]), hl]
          norm_num

/-- C4 witness: with both attempts failing, an unforced connect on a fresh
account performs exactly two attempts and returns false; a forced connect
performs exactly one. -/
theorem claim_C4_witness :
    (connect false initState (fun _ => none)).2.2 = 2 ∧
    (connect false initState (fun _ => none)).1 = false ∧
    (connect true initState (fun _ => none)).2.2 = 1 :=
  ⟨(claim_C4.1 initState (fun _ => none) (by norm_num [initState]) rfl).1,
   (claim_C4.1 initState (fun _ => none) (by norm_num [initState]) rfl).2 rfl,
   (claim_C4.2.1 initState (fun _ => none) rfl).2⟩

/-- A device id absent from the fresh list keeps its previous binding. -/
theorem alookup_mergeDevices_not_mem (fresh : List Dev) :
    ∀ (prev : List (ℕ × Dev)) (t : ℤ) (i : ℕ), i ∉ fresh.map Dev.deviceid →
    alookup i (mergeDevices prev fresh t) = alookup i prev := by
  induction fresh with
  | nil => intro prev t i _; rfl
  | cons d rest ih =>
    intro prev t i hi
    have hne : d.deviceid ≠ i := fun he => hi (by simp [he.symm])
    have hrest : i ∉ rest.map Dev.deviceid := fun hm => hi (by simp [hm])
    show alookup i (mergeDevices (aupdate d.deviceid { d with stamp := some t } prev) rest t)
      = alookup i prev
    rw [ih _ t i hrest, alookup_aupdate_ne i d.deviceid _ prev hne]

/-- Every device id of the fresh list ends up bound to an entry stamped
with the refresh timestamp. -/
theorem alookup_mergeDevices_mem (fresh : List Dev) :
    ∀ (prev : List (ℕ × Dev)) (t : ℤ) (i : ℕ), i ∈ fresh.map Dev.deviceid →
    ∃ dv, alookup i (mergeDevices prev fresh t) = some dv ∧ dv.stamp = some t := by
  induction fresh with
  | nil => intro prev t i hi; simp at hi
  | cons d rest ih =>
    intro prev t i hi
    by_cases hrest : i ∈ rest.map Dev.deviceid
    · exact ih _ t i hrest
    · have hd : d.deviceid = i := by
        rw [List.map_cons] at hi
        rcases List.mem_cons.1 hi with h | h
        · exact h.symm
        · exact absurd h hrest
      refine ⟨{ d with stamp := some t }, ?_, rfl⟩
      show alookup i (mergeDevices (aupdate d.deviceid { d with stamp := some t } prev) rest t)
        = some { d with stamp := some t }
      rw [alookup_mergeDevices_not_mem rest _ t i hrest, hd, alookup_aupdate_self]

/-- Lookup through a fold of setdefault with a fixed default. -/
theorem alookup_foldl_asetdefault {κ α : Type} [DecidableEq κ] (v : α) (ks : List κ) :
    ∀ (m : List (κ × α)) (k : κ),
    alookup k (ks.foldl (fun m1 k1 => asetdefault k1 v m1) m) =
      match alookup k m with
      | some w => some w
      | none => if k ∈ ks then some v else none := by
  induction ks with
  | nil =>
    intro m k
    cases hm : alookup k m <;> simp [hm]
  | cons k0 rest ih =>
    intro m k
    rw [List.foldl_cons, ih]
    by_cases h0 : k0 = k
    · subst h0
      rw [alookup_asetdefault_self]
      cases hm : alookup k0 m <;> simp [hm]
    · rw [alookup_asetdefault_ne k k0 v m h0]
      cases hm : alookup k m with
      | some w => simp
      | none =>
        have hmc : (k ∈ k0 :: rest) ↔ (k ∈ rest) := by
          constructor
          · intro h
            rcases List.mem_cons.1 h with he | he
            · exact absurd he.symm h0
            · exact he
          · exact fun h => List.mem_cons_of_mem _ h
        simp [hmc]

/-- C6 counterexample: update_devices does not replace the cached device
map wholesale.  With a cache holding device 1 and a fresh list holding
only device 2, the stale entry for device 1 survives the merge even
though 1 is not among the returned ids. -/
theorem counterexample_C6 :
    (1 : ℕ) ∉ [devY].map Dev.deviceid ∧
    alookup 1 (updateDevicesApply stC6 [devY] 7).devices = some devX := by
  decide

/-- C6 amended: a successful update_devices merges the fresh list into the
cached device map: every returned id is bound to an entry stamped with the
refresh timestamp, a cached device whose id is not among the returned ids
survives unchanged, and every returned id has a (possibly empty) entry in
the sample-history map. -/
theorem claim_C6 : ∀ (st : AccState) (fresh : List Dev) (t : ℤ),
    (∀ i ∈ fresh.map Dev.deviceid,
      ∃ dv, alookup i (updateDevicesApply st fresh t).devices = some dv ∧
        dv.stamp = some t) ∧
    (∀ i, i ∉ fresh.map Dev.deviceid →
      alookup i (updateDevicesApply st fresh t).devices = alookup i st.devices) ∧
    (∀ i ∈ fresh.map Dev.deviceid,
      (alookup i (updateDevicesApply st fresh t).sensors).isSome = true) := by
  intro st fresh t
  refine ⟨?_, ?_, ?_⟩
  · intro i hi
    exact alookup_mergeDevices_mem fresh st.devices t i hi
  · intro i hi
    exact alookup_mergeDevices_not_mem fresh st.devices t i hi
  · intro i hi
    obtain ⟨dv, hdv, _⟩ := alookup_mergeDevices_mem fresh st.devices t i hi
    have hmem : i ∈ akeys (mergeDevices st.devices fresh t) :=
      (alookup_isSome_iff_mem_akeys i _).1 (by simp [hdv])
    show (alookup i ((akeys (mergeDevices st.devices fresh t)).foldl
      (fun m k => asetdefault k ([] : Hist) m) st.sensors)).isSome = true
    rw [alookup_foldl_asetdefault]
    cases hm : alookup i st.sensors <;> simp [hm, hmem]

/-- C6 witness: merging the fresh device 2 into the cache stamps it with
timestamp 7, leaves the unrelated id 3 bound as before, and gives device 2
a history entry. -/
theorem claim_C6_witness :
    (∃ dv, alookup 2 (updateDevicesApply stC6 [devY] 7).devices = some dv ∧
      dv.stamp = some 7) ∧
    alookup 3 (updateDevicesApply stC6 [devY] 7).devices = alookup 3 stC6.devices ∧
    (alookup 2 (updateDevicesApply stC6 [devY] 7).sensors).isSome = true :=
  ⟨(claim_C6 stC6 [devY] 7).1 2 (by decide),
   (claim_C6 stC6 [devY] 7).2.1 3 (by decide),
   (claim_C6 stC6 [devY] 7).2.2 2 (by decide)⟩

/-- C9: for every account state and device, calling get_sensors twice with
the same current time and no intervening ingest returns the same result,
even though the first call rewrites the stored history with its pruned
form. -/
theorem claim_C9 : ∀ (now window : ℤ) (units : ℕ → CUnit) (st : AccState) (d : ℕ),
    (getSensorsFull now window units ((getSensorsFull now window units st d).2) d).1
      = (getSensorsFull now window units st d).1 := by
  intro now window units st d
  have h2 : alookup d (aupdate d
      (pruneHistory (now - window)
        ((alookup d (asetdefault d ([] : Hist) st.sensors)).getD []))
      (asetdefault d ([] : Hist) st.sensors))
      = some (pruneHistory (now - window)
        ((alookup d (asetdefault d ([] : Hist) st.sensors)).getD [])) :=
    alookup_aupdate_self _ _ _
  have h1 : asetdefault d ([] : Hist) (aupdate d
      (pruneHistory (now - window)
        ((alookup d (asetdefault d ([] : Hist) st.sensors)).getD []))
      (asetdefault d ([] : Hist) st.sensors))
      = aupdate d
        (pruneHistory (now - window)
          ((alookup d (asetdefault d ([] : Hist) st.sensors)).getD []))
        (asetdefault d ([] : Hist) st.sensors) :=
    asetdefault_of_isSome _ _ _ (by simp [h2])
  simp only [getSensorsFull, gsPrune, h1, h2, Option.getD_some, pruneHistory_idem]

/-- C1: on a non-empty pruned history, get_sensors computes each sensor
accumulator as the zero-order-hold time-weighted sum described by the
spec (zohSum: start holding 0 from the cutoff, weight each held sample by
the positive elapsed time, add the final now - lastTs + 1 contribution)
and divides by max(1, now - max(earliest kept timestamp, cutoff) + 1);
in the worked example (samples 10 at the cutoff instant and 20 five
seconds later, now ten seconds after the cutoff) the accumulated sum is
10*5 + 20*6 = 170, the divisor is 11, and the ppb sensor reading is
truncate(170/11) = 15. -/
theorem claim_C1 :
    (∀ (now window : ℤ) (units : ℕ → CUnit) (hist : Hist) (raw : SampleSet),
      histWF raw hist →
      List.Pairwise (fun a b => a.1 < b.1) hist →
      pruneHistory (now - window) hist ≠ [] →
      ∃ res2 out,
        sumLoop now (now - window) (pruneHistory (now - window) hist) (now - window)
          (seedRes raw) (seedRes raw) = some res2 ∧
        computeAvg now (now - window) units (pruneHistory (now - window) hist) raw
          = some out ∧
        (∀ s, qval s res2 = zohSum now (now - window) s (pruneHistory (now - window) hist)) ∧
        (∀ T, isLeastKey (pruneHistory (now - window) hist) T →
          avgLength now (now - window) (pruneHistory (now - window) hist)
            = max 1 (now - max T (now - window) + 1)) ∧
        (∀ s ∈ akeys raw, ∃ v, alookup s res2 = some v ∧
          alookup s out = postVal raw
            (avgLength now (now - window) (pruneHistory (now - window) hist)) units s v)) ∧
    (pruneHistory (10 - 10) exHistC1 = exHistC1 ∧
     sumLoop 10 (10 - 10) exHistC1 (10 - 10) (seedRes exRawC1) (seedRes exRawC1)
       = some [(7, PyNum.int 170)] ∧
     qval 7 [(7, PyNum.int 170)] = 170 ∧
     avgLength 10 (10 - 10) exHistC1 = 11 ∧
     computeAvg 10 (10 - 10) (fun _ => CUnit.ppb) exHistC1 exRawC1
       = some [(7, PyNum.int 15)]) := by
  constructor
  · intro now window units hist raw hwf hsort hne
    have hwfp : histWF raw (pruneHistory (now - window) hist) := fun p hp =>
      hwf p ((mem_pruneHistory _ _ p).1 hp).1
    obtain ⟨res2, out, hres2, hcomp, hkeys, hzoh, hpost⟩ :=
      computeAvg_spec now (now - window) units (pruneHistory (now - window) hist) raw hwfp
    refine ⟨res2, out, hres2, hcomp, hzoh, ?_, hpost⟩
    intro T hT
    unfold avgLength
    rw [minKey_eq_of_isLeastKey _ T hT]
  · refine ⟨by decide, by rfl, ?_, by rfl, ?_⟩
    · simp [qval, alookup_cons, PyNum.toRat]
    · have hs : sumLoop 10 (10 - 10) exHistC1 (10 - 10) (seedRes exRawC1) (seedRes exRawC1)
          = some [(7, PyNum.int 170)] := by rfl
      have hl : avgLength 10 (10 - 10) exHistC1 = 11 := rfl
      have ht : truncQ ((PyNum.int 170).toRat / (11 : ℚ)) = 15 := by
        rw [show ((PyNum.int 170).toRat / (11 : ℚ)) = (170 : ℚ) / 11 from by
          norm_num [PyNum.toRat]]
        rw [truncQ_eq, if_pos (by norm_num : (0 : ℚ) ≤ 170 / 11)]
        norm_num [Int.floor_eq_iff]
      unfold computeAvg
      rw [hs, hl]
      simp [postProcessGo, postVal, ht]

/-- C1 witness: the general statement applied to the worked example
history, snapshot and a ppb unit map. -/
theorem claim_C1_witness :
    ∃ res2 out,
      sumLoop 10 (10 - 10) (pruneHistory (10 - 10) exHistC1) (10 - 10)
        (seedRes exRawC1) (seedRes exRawC1) = some res2 ∧
      computeAvg 10 (10 - 10) (fun _ => CUnit.ppb) (pruneHistory (10 - 10) exHistC1)
        exRawC1 = some out ∧
      (∀ s, qval s res2 = zohSum 10 (10 - 10) s (pruneHistory (10 - 10) exHistC1)) ∧
      (∀ T, isLeastKey (pruneHistory (10 - 10) exHistC1) T →
        avgLength 10 (10 - 10) (pruneHistory (10 - 10) exHistC1)
          = max 1 (10 - max T (10 - 10) + 1)) ∧
      (∀ s ∈ akeys exRawC1, ∃ v, alookup s res2 = some v ∧
        alookup s out = postVal exRawC1
          (avgLength 10 (10 - 10) (pruneHistory (10 - 10) exHistC1))
          (fun _ => CUnit.ppb) s v) :=
  claim_C1.1 10 10 (fun _ => CUnit.ppb) exHistC1 exRawC1
    (by unfold histWF; decide) (by decide) (by decide)

/-- C8: on a device with a non-empty stored history and a raw snapshot
containing sensor id 1, get_sensors completes and returns for sensor id 1
exactly the raw snapshot value of sensor id 1, whatever the history and
the computed average. -/
theorem claim_C8 : ∀ (now window : ℤ) (units : ℕ → CUnit) (st : AccState) (d : ℕ)
    (hist : Hist) (raw : SampleSet),
    alookup d st.sensors = some hist → hist ≠ [] →
    alookup d st.sensorsRaw = some raw →
    histWF raw hist → 1 ∈ akeys raw →
    ∃ out, (getSensorsFull now window units st d).1 = some (some out) ∧
      alookup 1 out = alookup 1 raw := by
  intro now window units st d hist raw hs hne hr hwf h1
  have hs0 : asetdefault d ([] : Hist) st.sensors = st.sensors :=
    asetdefault_of_isSome d _ _ (by simp [hs])
  have hwfp : histWF raw (pruneHistory (now - window) hist) := fun p hp =>
    hwf p ((mem_pruneHistory _ _ p).1 hp).1
  obtain ⟨res2, out, hres2, hcomp, hkeys, hzoh, hpost⟩ :=
    computeAvg_spec now (now - window) units (pruneHistory (now - window) hist) raw hwfp
  obtain ⟨v, hv, hlook⟩ := hpost 1 h1
  refine ⟨out, ?_, ?_⟩
  · unfold getSensorsFull
    simp only [hs0, hs, Option.getD_some]
    rw [if_neg (pruneHistory_ne_nil _ hist hne), hr]
    show Option.map some
      (computeAvg now (now - window) units (pruneHistory (now - window) hist) raw)
      = some (some out)
    rw [hcomp]
    rfl
  · rw [hlook]
    unfold postVal
    rw [if_pos rfl]

/-- C8 witness: on a state storing the example history for device 5 and a
snapshot with sensors 1 and 7, get_sensors returns the snapshot value of
sensor 1. -/
theorem claim_C8_witness :
    ∃ out, (getSensorsFull 10 10 (fun _ => CUnit.ppb) stC8 5).1 = some (some out) ∧
      alookup 1 out = alookup 1 rawC8 :=
  claim_C8 10 10 (fun _ => CUnit.ppb) stC8 5 exHistC1 rawC8
    (by decide) (by decide) (by decide) (by unfold histWF; decide) (by decide)

/-- The invariant holds in the fresh account state. -/
theorem sensorsRawInv_init : sensorsRawInv initState := by
  intro d h hl
  simp [initState] at hl

/-- Every operation preserves the raw-snapshot invariant. -/
theorem sensorsRawInv_step (st : AccState) (op : Op) (hinv : sensorsRawInv st) :
    sensorsRawInv (step st op) := by
  cases op with
  | connectOk u tok => exact fun d h hl hne => hinv d h hl hne
  | connectFail => exact fun d h hl hne => hinv d h hl hne
  | deviceQueryFail => exact fun d h hl hne => hinv d h hl hne
  | fetchFail d0 => exact fun d h hl hne => hinv d h hl hne
  | updateDevicesOk fresh t =>
    intro d h hl hne
    show (alookup d st.sensorsRaw).isSome = true
    have hl2 : alookup d ((akeys (mergeDevices st.devices fresh t)).foldl
        (fun m k => asetdefault k ([] : Hist) m) st.sensors) = some h := hl
    rw [alookup_foldl_asetdefault] at hl2
    cases hm : alookup d st.sensors with
    | some w =>
      rw [hm] at hl2
      have hw : w = h := by injection (show some w = some h from hl2)
      exact hinv d h (hw ▸ hm) hne
    | none =>
      rw [hm] at hl2
      have hl3 : (if d ∈ akeys (mergeDevices st.devices fresh t)
          then some ([] : Hist) else none) = some h := hl2
      by_cases hd : d ∈ akeys (mergeDevices st.devices fresh t)
      · rw [if_pos hd] at hl3
        injection hl3 with hl3
        exact absurd hl3.symm hne
      · rw [if_neg hd] at hl3
        cases hl3
  | setActive ds =>
    intro d h hl hne
    show (alookup d st.sensorsRaw).isSome = true
    have hl2 : alookup d (ds.foldl
        (fun m k => asetdefault k ([] : Hist) m) st.sensors) = some h := hl
    rw [alookup_foldl_asetdefault] at hl2
    cases hm : alookup d st.sensors with
    | some w =>
      rw [hm] at hl2
      have hw : w = h := by injection (show some w = some h from hl2)
      exact hinv d h (hw ▸ hm) hne
    | none =>
      rw [hm] at hl2
      have hl3 : (if d ∈ ds then some ([] : Hist) else none) = some h := hl2
      by_cases hd : d ∈ ds
      · rw [if_pos hd] at hl3
        injection hl3 with hl3
        exact absurd hl3.symm hne
      · rw [if_neg hd] at hl3
        cases hl3
  | fetchOk d0 ts res =>
    intro d h hl hne
    by_cases hg : ((alookup d0 st.devices).isSome && (alookup d0 st.sensors).isSome) = true
    · have hraw : (step st (Op.fetchOk d0 ts res)).sensorsRaw
          = aupdate d0 res st.sensorsRaw := by
        simp [step, hg]
      have hsens : (step st (Op.fetchOk d0 ts res)).sensors
          = aupdate d0 (aupdate ts res ((alookup d0 st.sensors).getD []))
              st.sensors := by
        simp [step, hg]
      rw [hsens] at hl
      rw [hraw]
      by_cases hd : d0 = d
      · subst hd
        rw [alookup_aupdate_self]
        rfl
      · rw [alookup_aupdate_ne d d0 _ _ hd] at hl
        rw [alookup_aupdate_ne d d0 res st.sensorsRaw hd]
        exact hinv d h hl hne
    · have hid : step st (Op.fetchOk d0 ts res) = st := by
        simp [step, hg]
      rw [hid] at hl ⊢
      exact hinv d h hl hne
  | getSens d0 now window =>
    intro d h hl hne
    show (alookup d st.sensorsRaw).isSome = true
    have hl2 : alookup d (aupdate d0
        (pruneHistory (now - window)
          ((alookup d0 (asetdefault d0 ([] : Hist) st.sensors)).getD []))
        (asetdefault d0 ([] : Hist) st.sensors)) = some h := hl
    by_cases hd : d0 = d
    · subst hd
      rw [alookup_aupdate_self] at hl2
      injection hl2 with hl2
      cases hm : alookup d0 st.sensors with
      | some w =>
        have hw : (alookup d0 (asetdefault d0 ([] : Hist) st.sensors)).getD [] = w := by
          rw [alookup_asetdefault_self, hm]
          rfl
        rw [hw] at hl2
        have hwne : w ≠ [] := by
          intro hwe
          apply hne
          rw [← hl2, hwe]
          rfl
        exact hinv d0 w hm hwne
      | none =>
        have hw : (alookup d0 (asetdefault d0 ([] : Hist) st.sensors)).getD [] = [] := by
          rw [alookup_asetdefault_self, hm]
          rfl
        rw [hw] at hl2
        have hnil : ([] : Hist) = h := hl2
        exact absurd hnil.symm hne
    · rw [alookup_aupdate_ne d d0 _ _ hd, alookup_asetdefault_ne d d0 _ _ hd] at hl2
      exact hinv d h hl2 hne

/-- The raw-snapshot invariant holds in every reachable state. -/
theorem sensorsRawInv_run (ops : List Op) : sensorsRawInv (run ops) := by
  have hfold : ∀ (l : List Op) (st : AccState), sensorsRawInv st →
      sensorsRawInv (l.foldl step st) := by
    intro l
    induction l with
    | nil => exact fun st h => h
    | cons op rest ih => exact fun st h => ih (step st op) (sensorsRawInv_step st op h)
  exact hfold ops initState sensorsRawInv_init

/-- C10: in every state reachable through the controller operations, a
device with a non-empty stored history has a raw snapshot entry, so the
unguarded raw-snapshot lookups of get_sensors cannot fail there; a
successful ingest stores the fetched sample set as the raw snapshot and
into the history together, and no other operation changes the raw
snapshot map, so the snapshot always equals the sample set of the most
recent successful ingest. -/
theorem claim_C10 :
    (∀ (ops : List Op) (d : ℕ) (h : Hist),
      alookup d (run ops).sensors = some h → h ≠ [] →
      (alookup d (run ops).sensorsRaw).isSome = true) ∧
    (∀ (st : AccState) (d : ℕ) (ts : ℤ) (res : SampleSet),
      (alookup d st.devices).isSome = true → (alookup d st.sensors).isSome = true →
      alookup d (step st (Op.fetchOk d ts res)).sensorsRaw = some res ∧
      alookup d (step st (Op.fetchOk d ts res)).sensors
        = some (aupdate ts res ((alookup d st.sensors).getD []))) ∧
    (∀ (st : AccState) (op : Op), (∀ d ts res, op ≠ Op.fetchOk d ts res) →
      (step st op).sensorsRaw = st.sensorsRaw) := by
  refine ⟨?_, ?_, ?_⟩
  · exact fun ops => sensorsRawInv_run ops
  · intro st d ts res hdev hsen
    have hg : ((alookup d st.devices).isSome && (alookup d st.sensors).isSome) = true := by
      rw [hdev, hsen]
      rfl
    constructor
    · have hraw : (step st (Op.fetchOk d ts res)).sensorsRaw
          = aupdate d res st.sensorsRaw := by
        simp [step, hg]
      rw [hraw, alookup_aupdate_self]
    · have hsens : (step st (Op.fetchOk d ts res)).sensors
          = aupdate d (aupdate ts res ((alookup d st.sensors).getD []))
              st.sensors := by
        simp [step, hg]
      rw [hsens, alookup_aupdate_self]
  · intro st op hop
    cases op with
    | connectOk u tok => rfl
    | connectFail => rfl
    | updateDevicesOk fresh t => rfl
    | deviceQueryFail => rfl
    | fetchOk d ts res => exact absurd rfl (hop d ts res)
    | fetchFail d => rfl
    | getSens d now window => rfl
    | setActive ds => rfl

/-- C10 witness: after a device-list refresh and one successful ingest for
device 2, the raw snapshot for device 2 exists; a concrete successful
ingest stores its sample set as the snapshot; a failed connect leaves the
snapshot map unchanged. -/
theorem claim_C10_witness :
    (alookup 2 (run opsC10).sensorsRaw).isSome = true ∧
    alookup 2 (step (run [Op.updateDevicesOk [devY] 0])
        (Op.fetchOk 2 5 [(7, PyNum.int 3)])).sensorsRaw
      = some [(7, PyNum.int 3)] ∧
    (step initState Op.connectFail).sensorsRaw = initState.sensorsRaw :=
  ⟨claim_C10.1 opsC10 2 [(5, [(7, PyNum.int 3)])] (by decide) (by decide),
   (claim_C10.2.1 (run [Op.updateDevicesOk [devY] 0]) 2 5 [(7, PyNum.int 3)]
      (by decide) (by decide)).1,
   claim_C10.2.2 initState Op.connectFail (fun d ts res h => Op.noConfusion h)⟩

end Jq300
